import Mathlib

/-!
Verification development for the PokerCraft tournament-results aggregator
(`pokercraft.py`).  The numeric model uses exact rationals (`ℚ`) for the
monetary amounts the program stores in floating point; all formulas under
study are exact arithmetic identities over identically derived operands, so
the rational model preserves them.  CSV cells are modelled as `Option String`
(`none` = the column is absent from the file or the cell carries no value,
which is exactly the case in which Python's `dict.get` yields the fallback
path in the source).
-/

namespace Pokercraft

/-- Numeric value of a decimal digit character. -/
def dval (c : Char) : Nat := c.toNat - 48

/-- Strips leading and trailing whitespace from a character list, as Python's
`str.strip()` / the implicit stripping done by `float()` and `int()` do. -/
def charStrip (cs : List Char) : List Char :=
  ((cs.dropWhile Char.isWhitespace).reverse.dropWhile Char.isWhitespace).reverse

/-- Consumes a maximal run of decimal digits in which single underscores may
appear between two digits (Python numeric-literal underscore rule), returning
the accumulated value, the number of digits consumed, and the rest.  An
underscore not followed by a digit is left unconsumed (the caller's
full-match check then rejects the input, as CPython does). -/
def digitsUCore (acc cnt : Nat) : List Char → Nat × Nat × List Char
  | [] => (acc, cnt, [])
  | c :: cs =>
    if c.isDigit then digitsUCore (acc * 10 + dval c) (cnt + 1) cs
    else if c = '_' then
      match cs with
      | d :: rest =>
        if d.isDigit then digitsUCore (acc * 10 + dval d) (cnt + 1) rest
        else (acc, cnt, c :: cs)
      | [] => (acc, cnt, c :: cs)
    else (acc, cnt, c :: cs)

/-- A digit group must begin with a digit; otherwise it is absent. -/
def digitsU : List Char → Option (Nat × Nat × List Char)
  | [] => none
  | c :: cs => if c.isDigit then some (digitsUCore 0 0 (c :: cs)) else none

/-- An optional sign; returns `true` when the consumed sign is a minus. -/
def pSign : List Char → Bool × List Char
  | '+' :: cs => (false, cs)
  | '-' :: cs => (true, cs)
  | cs => (false, cs)

/-- The exponent suffix of a Python float literal: `e`/`E`, an optional
sign and a mandatory digit group; `none` when no exponent is present,
`some none` when an exponent marker is present but malformed. -/
def pExp : List Char → Option (Option (Int × List Char))
  | c :: cs =>
    if c = 'e' ∨ c = 'E' then
      let (neg, cs1) := pSign cs
      match digitsU cs1 with
      | some (v, _, rest) => some (some ((if neg then -(v : Int) else (v : Int)), rest))
      | none => some none
    else none
  | [] => none

/-- The finite-decimal grammar accepted by Python's `float()` constructor
(`[sign] (digits [. digits?] | . digits) [exponent]`, surrounding whitespace
stripped, underscores between digits).  The `inf`/`nan` spellings, which have
no rational counterpart, are outside this model.  Yields the literal's parts
`(negative, mantissa, fractionDigits, exponent)`, the denoted value being
`±mantissa / 10^fractionDigits · 10^exponent`. -/
def pyFloatParse (input : List Char) : Option (Bool × Nat × Nat × Int) :=
  let cs := charStrip input
  let (neg, cs1) := pSign cs
  let (ival, icnt, cs2) :=
    match digitsU cs1 with
    | some (v, n, rest) => (v, n, rest)
    | none => (0, 0, cs1)
  let (fval, fcnt, cs3) :=
    match cs2 with
    | '.' :: rest =>
      match digitsU rest with
      | some (v, n, r2) => (v, n, r2)
      | none => (0, 0, rest)
    | _ => (0, 0, cs2)
  let hadDot := match cs2 with | '.' :: _ => true | _ => false
  if icnt = 0 ∧ (¬ hadDot ∨ fcnt = 0) then none
  else
    let (e, cs4) :=
      match pExp cs3 with
      | some (some (v, rest)) => (some v, rest)
      | some none => (none, cs3)
      | none => (some 0, cs3)
    match e with
    | none => none
    | some exp =>
      if cs4 = [] then some (neg, ival * 10 ^ fcnt + fval, fcnt, exp) else none

/-- The exact rational value denoted by a parsed float literal. -/
def ratOfFloatParts : Bool × Nat × Nat × Int → ℚ
  | (neg, m, f, e) =>
    let base : ℚ := (m : ℚ) / 10 ^ f
    let scaled : ℚ := if 0 ≤ e then base * 10 ^ e.toNat else base / 10 ^ (-e).toNat
    if neg then -scaled else scaled

/-- Parses a Python float literal to its exact rational value. -/
def pyFloatChars (input : List Char) : Option ℚ :=
  (pyFloatParse input).map ratOfFloatParts

/-- The grammar accepted by Python's `int()` constructor on strings:
optional surrounding whitespace, optional sign, a digit group with
underscores between digits, nothing else. -/
def pyIntChars (input : List Char) : Option Int :=
  let cs := charStrip input
  let (neg, cs1) := pSign cs
  match digitsU cs1 with
  | some (v, _, rest) =>
    if rest = [] then some (if neg then -(v : Int) else (v : Int)) else none
  | none => none

/-- `to_float` from the source: `None`/empty → `0.0`; otherwise every comma
is replaced by a period and the result is parsed as a float, any parse
failure yielding `0.0`. -/
def to_float (value : Option String) : ℚ :=
  match value with
  | none => 0
  | some s =>
    if s = "" then 0
    else
      match pyFloatChars (s.data.map (fun c => if c = ',' then '.' else c)) with
      | some q => q
      | none => 0

/-- `to_int` from the source: `None`/empty → no value; otherwise parsed as an
integer, parse failure yielding no value. -/
def to_int (value : Option String) : Option Int :=
  match value with
  | none => none
  | some s =>
    if s = "" then none
    else
      match pyIntChars s.data with
      | some n => some n
      | none => none

/-- A timestamp, as produced by `datetime.strptime`. -/
structure DateTime where
  year : Nat
  month : Nat
  day : Nat
  hour : Nat
  minute : Nat
  second : Nat
deriving DecidableEq, Repr

/-- Python `datetime` comparison: lexicographic on the components. -/
def DateTime.ltb (a b : DateTime) : Bool :=
  if a.year ≠ b.year then a.year < b.year
  else if a.month ≠ b.month then a.month < b.month
  else if a.day ≠ b.day then a.day < b.day
  else if a.hour ≠ b.hour then a.hour < b.hour
  else if a.minute ≠ b.minute then a.minute < b.minute
  else a.second < b.second

/-- Whether `y` is a Gregorian leap year. -/
def isLeap (y : Nat) : Bool := y % 4 = 0 ∧ (y % 100 ≠ 0 ∨ y % 400 = 0)

/-- Number of days in a month, as Python's `datetime` validates it. -/
def daysInMonth (y m : Nat) : Nat :=
  if m = 2 then (if isLeap y then 29 else 28)
  else if m = 4 ∨ m = 6 ∨ m = 9 ∨ m = 11 then 30
  else 31

/-- The range validation performed by the `datetime` constructor; a parse
whose fields fail it raises, i.e. that format attempt fails. -/
def mkDateTime (y m d h mi s : Nat) : Option DateTime :=
  if 1 ≤ y ∧ y ≤ 9999 ∧ 1 ≤ m ∧ m ≤ 12 ∧ 1 ≤ d ∧ d ≤ daysInMonth y m
      ∧ h ≤ 23 ∧ mi ≤ 59 ∧ s ≤ 59 then
    some ⟨y, m, d, h, mi, s⟩
  else none

/-- A one-digit numeric field of a `strptime` pattern (value at least `lo1`),
continuation-passing. -/
def pOne (lo1 : Nat) (k : Nat → List Char → Option DateTime) :
    List Char → Option DateTime
  | a :: cs => if a.isDigit ∧ lo1 ≤ dval a then k (dval a) cs else none
  | [] => none

/-- A numeric field of a `strptime` pattern: the two-digit alternative
(value within `[lo2, hi2]`) is preferred, the one-digit alternative is the
backtracking fallback, mirroring the alternation order of the regular
expressions CPython compiles for `%m`, `%d`, `%H`, `%M`, `%S`. -/
def pNum (lo2 hi2 lo1 : Nat) (k : Nat → List Char → Option DateTime) :
    List Char → Option DateTime
  | a :: b :: cs =>
    if a.isDigit ∧ b.isDigit ∧ lo2 ≤ 10 * dval a + dval b ∧ 10 * dval a + dval b ≤ hi2 then
      match k (10 * dval a + dval b) cs with
      | some r => some r
      | none => pOne lo1 k (a :: b :: cs)
    else pOne lo1 k (a :: b :: cs)
  | cs => pOne lo1 k cs

/-- The `%Y` field: exactly four digits. -/
def pY4 (k : Nat → List Char → Option DateTime) : List Char → Option DateTime
  | a :: b :: c :: d :: cs =>
    if a.isDigit ∧ b.isDigit ∧ c.isDigit ∧ d.isDigit then
      k (((dval a * 10 + dval b) * 10 + dval c) * 10 + dval d) cs
    else none
  | _ => none

/-- A literal character of a `strptime` pattern. -/
def pLit (c : Char) (k : List Char → Option DateTime) : List Char → Option DateTime
  | x :: cs => if x = c then k cs else none
  | [] => none

/-- Consumes further whitespace; greedy consumption is faithful here because
every following pattern element is a digit. -/
def pWsStar (k : List Char → Option DateTime) : List Char → Option DateTime
  | x :: cs => if x.isWhitespace then pWsStar k cs else k (x :: cs)
  | [] => k []

/-- Whitespace in a `strptime` pattern: one or more whitespace characters. -/
def pWs (k : List Char → Option DateTime) : List Char → Option DateTime
  | x :: cs => if x.isWhitespace then pWsStar k cs else none
  | [] => none

/-- End of input, then the `datetime` constructor: `strptime` rejects any
unconverted trailing data. -/
def pEnd (y m d h mi s : Nat) : List Char → Option DateTime
  | [] => mkDateTime y m d h mi s
  | _ :: _ => none

/-- The `%m` field. -/
def pMonth (k : Nat → List Char → Option DateTime) : List Char → Option DateTime :=
  pNum 1 12 1 k

/-- The `%d` field. -/
def pDay (k : Nat → List Char → Option DateTime) : List Char → Option DateTime :=
  pNum 1 31 1 k

/-- The `%H` field. -/
def pHour (k : Nat → List Char → Option DateTime) : List Char → Option DateTime :=
  pNum 0 23 0 k

/-- The `%M` field. -/
def pMin (k : Nat → List Char → Option DateTime) : List Char → Option DateTime :=
  pNum 0 59 0 k

/-- The `%S` field (the pattern admits leap seconds 60 and 61, which the
`datetime` constructor then rejects). -/
def pSec (k : Nat → List Char → Option DateTime) : List Char → Option DateTime :=
  pNum 0 61 0 k

/-- `strptime` with pattern `%Y-%m-%d`. -/
def tryYmd (s : String) : Option DateTime :=
  pY4 (fun y => pLit '-' (pMonth (fun m => pLit '-' (pDay (fun d =>
    pEnd y m d 0 0 0))))) s.data

/-- `strptime` with pattern `%Y-%m-%d %H:%M`. -/
def tryYmdHM (s : String) : Option DateTime :=
  pY4 (fun y => pLit '-' (pMonth (fun m => pLit '-' (pDay (fun d =>
    pWs (pHour (fun h => pLit ':' (pMin (fun mi =>
      pEnd y m d h mi 0))))))))) s.data

/-- `strptime` with pattern `%Y-%m-%d %H:%M:%S`. -/
def tryYmdHMS (s : String) : Option DateTime :=
  pY4 (fun y => pLit '-' (pMonth (fun m => pLit '-' (pDay (fun d =>
    pWs (pHour (fun h => pLit ':' (pMin (fun mi => pLit ':' (pSec (fun sec =>
      pEnd y m d h mi sec))))))))))) s.data

/-- `strptime` with pattern `%d.%m.%Y`. -/
def tryDmy (s : String) : Option DateTime :=
  pDay (fun d => pLit '.' (pMonth (fun m => pLit '.' (pY4 (fun y =>
    pEnd y m d 0 0 0))))) s.data

/-- `strptime` with pattern `%d.%m.%Y %H:%M`. -/
def tryDmyHM (s : String) : Option DateTime :=
  pDay (fun d => pLit '.' (pMonth (fun m => pLit '.' (pY4 (fun y =>
    pWs (pHour (fun h => pLit ':' (pMin (fun mi =>
      pEnd y m d h mi 0))))))))) s.data

/-- `strptime` with pattern `%d.%m.%Y %H:%M:%S`. -/
def tryDmyHMS (s : String) : Option DateTime :=
  pDay (fun d => pLit '.' (pMonth (fun m => pLit '.' (pY4 (fun y =>
    pWs (pHour (fun h => pLit ':' (pMin (fun mi => pLit ':' (pSec (fun sec =>
      pEnd y m d h mi sec))))))))))) s.data

/-- The six format patterns of `parse_date`. -/
inductive Fmt where
  | ymd | ymdHM | ymdHMS | dmy | dmyHM | dmyHMS
deriving DecidableEq, Repr

/-- `datetime.strptime` restricted to the six patterns the program uses. -/
def strptime : Fmt → String → Option DateTime
  | .ymd, s => tryYmd s
  | .ymdHM, s => tryYmdHM s
  | .ymdHMS, s => tryYmdHMS s
  | .dmy, s => tryDmy s
  | .dmyHM, s => tryDmyHM s
  | .dmyHMS, s => tryDmyHMS s

/-- The `formats` list of `parse_date`, in source order. -/
def formats : List Fmt := [.ymd, .ymdHM, .ymdHMS, .dmy, .dmyHM, .dmyHMS]

/-- `str.strip()` on a string. -/
def pyStrip (s : String) : String := ⟨charStrip s.data⟩

/-- The try-each-format loop of `parse_date`: the value is stripped before
each attempt and the first successful parse wins. -/
def tryFormats (value : String) : List Fmt → Option DateTime
  | [] => none
  | f :: fs =>
    match strptime f (pyStrip value) with
    | some d => some d
    | none => tryFormats value fs

/-- `parse_date` from the source: empty input yields no value, otherwise the
formats are tried in their fixed order. -/
def parse_date (value : String) : Option DateTime :=
  if value = "" then none else tryFormats value formats

/-- `parse_date` as applied to `row.get("Date")`, whose result may be `None`
(Python's `if not value` catches both `None` and the empty string). -/
def parseDateOpt (value : Option String) : Option DateTime :=
  match value with
  | none => none
  | some s => parse_date s

/-- The `TournamentRecord` dataclass.  Monetary amounts are exact rationals
standing for the floats the program stores.  `tournament` is optional
because `row.get("Tournament", "Unknown")` stores Python's `None` when the
column is present but the cell carries no value. -/
structure TournamentRecord where
  date : DateTime
  tournament : Option String
  buyin_total : ℚ
  rake : ℚ
  prize : ℚ
  profit : ℚ
  placement : Option Int
  field_size : Option Int
  currency : String
  t_type : String
deriving DecidableEq, Repr

/-- One CSV data row as `load_summaries` consumes it, at `csv.DictReader`
fidelity: for each recognized column name the outer `Option` says whether
the column is among the file's fieldnames (`none` = key absent from the row
dict), and the inner `Option` is the cell's value — `some s` a string,
`none` Python's `None`, which `DictReader` fills in for the trailing cells
of a line shorter than the header (`restval`). -/
structure Row where
  date : Option (Option String)
  tournament : Option (Option String)
  buyIn : Option (Option String)
  result : Option (Option String)
  rake : Option (Option String)
  placement : Option (Option String)
  fieldSize : Option (Option String)
  currency : Option (Option String)
  t_type : Option (Option String)
deriving DecidableEq, Repr

/-- Python's `row.get(name)`: `None` both when the key is absent and when
the cell's value is `None`. -/
def pyGet (cell : Option (Option String)) : Option String :=
  match cell with
  | none => none
  | some v => v

/-- Python's `row.get(name, default)`: the default only when the key is
absent; otherwise the cell's value, which may be `None`. -/
def pyGetD (cell : Option (Option String)) (default : String) : Option String :=
  match cell with
  | none => some default
  | some v => v

/-- `row.get(name, "").strip() or default`, with the crash propagated:
an absent key takes the `""` default, which strips to `""` and falls back
to `default`; a present cell holding `None` makes `None.strip()` raise
`AttributeError`, modelled as `none`; otherwise the stripped value, or the
fallback when it strips to empty. -/
def pyGetStrip (cell : Option (Option String)) (default : String) : Option String :=
  match cell with
  | none => some default
  | some none => none
  | some (some s) => some (if pyStrip s = "" then default else pyStrip s)

/-- The per-row body of the `load_summaries` reader loop.  All field
coercions are performed as in the source; computing `currency` or `t_type`
from a present-but-`None` cell raises (`.error`), and the source computes
them before its date check, so the exception fires even on rows whose date
would drop them.  Otherwise the row is dropped (`.ok none`) exactly when
its date failed to parse, else the record is constructed with
`profit = prize - buyin`. -/
def processRow (row : Row) : Except String (Option TournamentRecord) :=
  let d := parseDateOpt (pyGet row.date)
  let buyin := to_float (pyGet row.buyIn)
  let prize := to_float (pyGet row.result)
  let rake := if row.rake.isSome then to_float (pyGet row.rake) else 0
  let placement := to_int (pyGet row.placement)
  let field_size := to_int (pyGet row.fieldSize)
  match pyGetStrip row.currency "UNKNOWN", pyGetStrip row.t_type "Unknown" with
  | some currency, some t_type =>
    let profit := prize - buyin
    match d with
    | none => Except.ok none
    | some dd =>
      Except.ok (some
        { date := dd, tournament := pyGetD row.tournament "Unknown",
          buyin_total := buyin, rake := rake, prize := prize, profit := profit,
          placement := placement, field_size := field_size,
          currency := currency, t_type := t_type })
  | _, _ => Except.error "AttributeError"

/-- Whether the row's processing raised. -/
def isCrash (x : Except String (Option TournamentRecord)) : Bool :=
  match x with
  | .error _ => true
  | .ok _ => false

/-- The record a processed row contributed, if any. -/
def okRecord (x : Except String (Option TournamentRecord)) : Option TournamentRecord :=
  match x with
  | .ok (some rec) => some rec
  | _ => none

/-- The row loop over one file whose required-column check passed: records
accumulate in row order; an exception is caught by the per-file handler, so
records appended before it are kept and the rest of the file is skipped. -/
def loadRows : List Row → List TournamentRecord
  | [] => []
  | row :: rows =>
    match processRow row with
    | .error _ => []
    | .ok none => loadRows rows
    | .ok (some rec) => rec :: loadRows rows

/-- `load_summaries`, restricted to the per-row logic: each input file is a
list of rows (its required-column check already passed), and the produced
records appear in file-then-row order. -/
def load_summaries (files : List (List Row)) : List TournamentRecord :=
  (files.map loadRows).flatten

/-- A plain calendar date, the value `--min-date`/`--max-date` carry after
`strptime(_, "%Y-%m-%d")`. -/
structure Date where
  year : Nat
  month : Nat
  day : Nat
deriving DecidableEq, Repr

/-- The timestamp `strptime` produces from a date-only pattern: midnight of
that day. -/
def Date.midnight (d : Date) : DateTime := ⟨d.year, d.month, d.day, 0, 0, 0⟩

/-- The loop body conditions of `filter_records`: a record is skipped when a
non-empty currency is given that differs from the record's (Python's
`if currency and r.currency != currency`), or its date is strictly before
the min boundary, or strictly after the max boundary. -/
def filterLoop (currency : Option String) (d_min d_max : Option DateTime) :
    List TournamentRecord → List TournamentRecord
  | [] => []
  | r :: rs =>
    if (match currency with | some c => c != "" && r.currency != c | none => false) then
      filterLoop currency d_min d_max rs
    else if (match d_min with | some d => DateTime.ltb r.date d | none => false) then
      filterLoop currency d_min d_max rs
    else if (match d_max with | some d => DateTime.ltb d r.date | none => false) then
      filterLoop currency d_min d_max rs
    else r :: filterLoop currency d_min d_max rs

/-- `filter_records` from the source; the optional min/max arguments are
taken as the calendar dates their `%Y-%m-%d` strings parse to, and become
midnight timestamps. -/
def filter_records (records : List TournamentRecord) (currency : Option String)
    (min_date max_date : Option Date) : List TournamentRecord :=
  let d_min := min_date.map Date.midnight
  let d_max := max_date.map Date.midnight
  filterLoop currency d_min d_max records

/-- The overall-summary mapping of `aggregate_overall`. -/
structure OverallStats where
  total_tournaments : Nat
  total_buyin : ℚ
  total_prize : ℚ
  total_profit : ℚ
  roi_percent : ℚ
  itm_percent : ℚ
  abi : ℚ
deriving DecidableEq, Repr

/-- Python's `sum(...)` over a generator: a left fold starting from `0`. -/
def pySum (xs : List ℚ) : ℚ := xs.foldl (· + ·) 0

/-- `aggregate_overall` from the source, with its `> 0` division guards. -/
def aggregate_overall (records : List TournamentRecord) : OverallStats :=
  let total_buyin := pySum (records.map (·.buyin_total))
  let total_prize := pySum (records.map (·.prize))
  let profit := total_prize - total_buyin
  let itm_count : Nat := records.foldl (fun n r => if 0 < r.prize then n + 1 else n) 0
  let total := records.length
  let roi := if 0 < total_buyin then profit / total_buyin * 100 else 0
  let itm := if 0 < total then (itm_count : ℚ) / (total : ℚ) * 100 else 0
  let abi := if 0 < total then total_buyin / (total : ℚ) else 0
  { total_tournaments := total, total_buyin := total_buyin,
    total_prize := total_prize, total_profit := profit,
    roi_percent := roi, itm_percent := itm, abi := abi }

/-- `get_limit_group` from the source. -/
def get_limit_group (buyin : ℚ) : String :=
  if buyin < 5 then "Micro (0–5)"
  else if buyin < 22 then "Low (5–22)"
  else if buyin < 109 then "Mid (22–109)"
  else "High (109+)"

/-- The running sums one group accumulates. -/
structure GroupAcc where
  count : Nat
  buyin : ℚ
  prize : ℚ
  profit : ℚ
deriving DecidableEq, Repr

/-- A group's row of the final mapping, after the derived fields are added. -/
structure GroupStats where
  count : Nat
  buyin : ℚ
  prize : ℚ
  profit : ℚ
  roi_percent : ℚ
  abi : ℚ
deriving DecidableEq, Repr

/-- Association-list lookup, the model of Python dict access (keys are
unique; insertion order is the list order). -/
def lookupA {α : Type} (k : String) : List (String × α) → Option α
  | [] => none
  | (k1, v) :: rest => if k1 = k then some v else lookupA k rest

/-- Updates the (first) entry with the given key in place. -/
def updateA {α : Type} (k : String) (f : α → α) : List (String × α) → List (String × α)
  | [] => []
  | (k1, v) :: rest => if k1 = k then (k1, f v) :: rest else (k1, v) :: updateA k f rest

/-- Adding one record into its group's running sums. -/
def addRec (v : GroupAcc) (r : TournamentRecord) : GroupAcc :=
  { count := v.count + 1, buyin := v.buyin + r.buyin_total,
    prize := v.prize + r.prize, profit := v.profit + r.profit }

/-- One iteration of the grouping loop: a first-seen key is inserted at the
end with zeroed sums (Python dict insertion order), then the record is added
into its group. -/
def accStep (key : TournamentRecord → String) (groups : List (String × GroupAcc))
    (r : TournamentRecord) : List (String × GroupAcc) :=
  let g := key r
  let groups1 :=
    match lookupA g groups with
    | none => groups ++ [(g, ⟨0, 0, 0, 0⟩)]
    | some _ => groups
  updateA g (fun v => addRec v r) groups1

/-- The post-pass that derives `roi_percent` and `abi` for one group, with
the source's `> 0` guards (`if v["count"]` is Python truthiness, i.e.
`count > 0`). -/
def deriveStats (v : GroupAcc) : GroupStats :=
  { count := v.count, buyin := v.buyin, prize := v.prize, profit := v.profit,
    roi_percent := if 0 < v.buyin then v.profit / v.buyin * 100 else 0,
    abi := if 0 < v.count then v.buyin / (v.count : ℚ) else 0 }

/-- The common shape of `aggregate_by_limits` and `aggregate_by_type`:
accumulate per key, then derive the per-group fields. -/
def aggregateByKey (key : TournamentRecord → String)
    (records : List TournamentRecord) : List (String × GroupStats) :=
  (records.foldl (accStep key) []).map (fun p => (p.1, deriveStats p.2))

/-- `aggregate_by_limits` from the source: groups by stake tier. -/
def aggregate_by_limits (records : List TournamentRecord) : List (String × GroupStats) :=
  aggregateByKey (fun r => get_limit_group r.buyin_total) records

/-- `aggregate_by_type` from the source: groups by the record's type. -/
def aggregate_by_type (records : List TournamentRecord) : List (String × GroupStats) :=
  aggregateByKey (fun r => r.t_type) records

/-!  Specification-side definitions, written from the spec's words, to be
compared with the source-side functions above. -/

/-- `a ≤ b` on timestamps, derived from the strict comparison. -/
def DateTime.leb (a b : DateTime) : Bool := !(DateTime.ltb b a)

/-- The record-keeping predicate of the filter stage as the spec words it
(amended for the empty-currency case): a given non-empty currency must match
exactly; a given min-date keeps records with `date ≥` its midnight; a given
max-date keeps records with `date ≤` its midnight. -/
def keepSpec (currency : Option String) (min_date max_date : Option Date)
    (r : TournamentRecord) : Bool :=
  (match currency with
   | some c => c == "" || r.currency == c
   | none => true)
  && (match min_date with
      | some d => DateTime.leb d.midnight r.date
      | none => true)
  && (match max_date with
      | some d => DateTime.leb r.date d.midnight
      | none => true)

/-- The keys of a list in order of first appearance, skipping those already
seen. -/
def firstSeenAux (seen : List String) : List String → List String
  | [] => []
  | k :: ks =>
    if k ∈ seen then firstSeenAux seen ks else k :: firstSeenAux (seen ++ [k]) ks

/-- The keys of a list in order of first appearance. -/
def firstSeen (ks : List String) : List String := firstSeenAux [] ks

/-- Folding records into a group's running sums. -/
def addAll (v : GroupAcc) (sel : List TournamentRecord) : GroupAcc :=
  sel.foldl addRec v

/-- A group's sums as the spec words them: count of the records with the
group's key, and their summed buy-in, prize and profit. -/
def groupSpecAcc (key : TournamentRecord → String) (k : String)
    (rs : List TournamentRecord) : GroupAcc :=
  let sel := rs.filter (fun r => key r == k)
  { count := sel.length, buyin := (sel.map (·.buyin_total)).sum,
    prize := (sel.map (·.prize)).sum, profit := (sel.map (·.profit)).sum }

/-- The group-by aggregation as the spec words it: one entry per key in
first-seen order, the group's sums accumulated over the records with that
key, with the derived fields added after accumulation. -/
def groupSpec (key : TournamentRecord → String) (rs : List TournamentRecord) :
    List (String × GroupStats) :=
  (firstSeen (rs.map key)).map (fun k => (k, deriveStats (groupSpecAcc key k rs)))

/-- The outcome of attempting to parse an amount cell: `none` when the cell
is missing, empty, or fails the float grammar — exactly the cases in which
`to_float` falls back to `0.0`. -/
def amountParse (value : Option String) : Option ℚ :=
  match value with
  | none => none
  | some s =>
    if s = "" then none
    else pyFloatChars (s.data.map (fun c => if c = ',' then '.' else c))

/-- The conjunction of the negated skip conditions of the filter loop, as a
single predicate. -/
def keepB (c : Option String) (dmin dmax : Option DateTime)
    (r : TournamentRecord) : Bool :=
  (!(match c with | some cc => cc != "" && r.currency != cc | none => false)) &&
  (!(match dmin with | some d => DateTime.ltb r.date d | none => false)) &&
  (!(match dmax with | some d => DateTime.ltb d r.date | none => false))

/-!  Concrete inputs used by witnesses and counterexamples. -/

/-- A well-formed input row. -/
def rowW : Row :=
  { date := some (some "2024-01-02"), tournament := some (some "Daily Main"),
    buyIn := some (some "10"), result := some (some "25"), rake := some (some "1"),
    placement := some (some "3"), fieldSize := some (some "100"),
    currency := some (some "USD"), t_type := some (some "MTT") }

/-- A row whose buy-in cell holds a parseable negative amount. -/
def rowNeg : Row :=
  { date := some (some "2024-01-01"), tournament := some (some "T"),
    buyIn := some (some "-5"), result := some (some "0"), rake := none,
    placement := none, fieldSize := none,
    currency := some (some "USD"), t_type := some (some "MTT") }

/-- A row with a good date but unparseable numeric and integer cells. -/
def rowBad : Row :=
  { date := some (some "2024-01-03"), tournament := some (some "T"),
    buyIn := some (some "abc"), result := some (some ""), rake := none,
    placement := some (some "x7"), fieldSize := some (some "1.5"),
    currency := none, t_type := none }

/-- A row whose date cell does not match any of the six formats. -/
def rowBadDate : Row :=
  { date := some (some "01/02/2024"), tournament := some (some "T"),
    buyIn := some (some "10"), result := some (some "0"), rake := none,
    placement := none, fieldSize := none,
    currency := some (some "USD"), t_type := some (some "MTT") }

/-- A short line of a file whose header includes `Currency`: `DictReader`
fills the missing trailing cell with `None`, so
`row.get("Currency", "").strip()` raises.  Its date and buy-in cells are
perfectly parseable. -/
def rowShortCur : Row :=
  { date := some (some "2024-01-01"), tournament := some (some "T"),
    buyIn := some (some "10"), result := some (some "0"), rake := none,
    placement := none, fieldSize := none,
    currency := some none, t_type := some (some "MTT") }

/-- A concrete record with currency `"USD"`. -/
def recUSD : TournamentRecord :=
  { date := ⟨2024, 1, 2, 0, 0, 0⟩, tournament := some "T", buyin_total := 10,
    rake := 0, prize := 0, profit := -10, placement := none,
    field_size := none, currency := "USD", t_type := "MTT" }

/-- A concrete record with a negative buy-in total, as the loader produces
from a row whose buy-in cell is a parseable negative number. -/
def recNegBuyin : TournamentRecord :=
  { date := ⟨2024, 1, 1, 0, 0, 0⟩, tournament := some "T", buyin_total := -5,
    rake := 0, prize := 0, profit := 5, placement := none,
    field_size := none, currency := "USD", t_type := "MTT" }

/-- A second concrete record, in the Low tier with a prize. -/
def recLow : TournamentRecord :=
  { date := ⟨2024, 1, 3, 0, 0, 0⟩, tournament := some "U", buyin_total := 5,
    rake := 0, prize := 12, profit := 7, placement := some 1,
    field_size := some 9, currency := "USD", t_type := "SNG" }

/-!  Helper lemmas. -/

/-- `to_float` is the defaulting of the parse attempt. -/
theorem to_float_eq_amountParse (v : Option String) :
    to_float v = (amountParse v).getD 0 := by
  cases v with
  | none => rfl
  | some s =>
    by_cases hs : s = ""
    · simp [to_float, amountParse, hs]
    · cases hp : pyFloatChars (s.data.map (fun c => if c = ',' then '.' else c)) <;>
        simp [to_float, amountParse, hs, hp]

/-!  Claim theorems. -/

/-- C3: the stake-tier function is total on ℚ and maps `b < 5` to Micro,
`5 ≤ b < 22` to Low, `22 ≤ b < 109` to Mid and `109 ≤ b` to High. -/
theorem stake_tier_spec (b : ℚ) :
    (b < 5 → get_limit_group b = "Micro (0–5)") ∧
    (5 ≤ b → b < 22 → get_limit_group b = "Low (5–22)") ∧
    (22 ≤ b → b < 109 → get_limit_group b = "Mid (22–109)") ∧
    (109 ≤ b → get_limit_group b = "High (109+)") := by
  refine ⟨fun h => ?_, fun h1 h2 => ?_, fun h1 h2 => ?_, fun h1 => ?_⟩
  all_goals unfold get_limit_group
  · rw [if_pos h]
  · rw [if_neg (not_lt.mpr h1), if_pos h2]
  · rw [if_neg (not_lt.mpr (le_trans (by norm_num) h1)),
      if_neg (not_lt.mpr h1), if_pos h2]
  · rw [if_neg (not_lt.mpr (le_trans (by norm_num) h1)),
      if_neg (not_lt.mpr (le_trans (by norm_num) h1)),
      if_neg (not_lt.mpr h1)]

/-- C3 witness: the boundary values named by the spec. -/
theorem stake_tier_spec_witness :
    get_limit_group (499/100) = "Micro (0–5)" ∧
    get_limit_group 5 = "Low (5–22)" ∧
    get_limit_group (2199/100) = "Low (5–22)" ∧
    get_limit_group 22 = "Mid (22–109)" ∧
    get_limit_group 109 = "High (109+)" :=
  ⟨(stake_tier_spec _).1 (by norm_num),
   (stake_tier_spec _).2.1 (by norm_num) (by norm_num),
   (stake_tier_spec _).2.1 (by norm_num) (by norm_num),
   (stake_tier_spec _).2.2.1 (by norm_num) (by norm_num),
   (stake_tier_spec _).2.2.2 (by norm_num)⟩

/-- C9: `to_float` maps missing/empty input to 0, otherwise replaces every
comma with a period and parses the result as a float, any parse failure
yielding 0; in particular `"1,5" ↦ 1.5`, `"" ↦ 0`, `"abc" ↦ 0`. -/
theorem to_float_spec :
    to_float none = 0 ∧ to_float (some "") = 0 ∧
    (∀ s : String, s ≠ "" →
      to_float (some s) =
        (pyFloatChars (s.data.map (fun c => if c = ',' then '.' else c))).getD 0) ∧
    to_float (some "1,5") = 3/2 ∧ to_float (some "abc") = 0 := by
  refine ⟨rfl, rfl, fun s hs => ?_, ?_, ?_⟩
  · rw [to_float_eq_amountParse]
    simp [amountParse, hs]
  · have h : pyFloatParse ['1', '.', '5'] = some (false, 15, 1, 0) := by decide
    simp [to_float, pyFloatChars, h, ratOfFloatParts]
    norm_num
  · have h : pyFloatParse ['a', 'b', 'c'] = none := by decide
    simp [to_float, pyFloatChars, h]

/-- C9 witness: the non-empty branch applied at a concrete string. -/
theorem to_float_spec_witness :
    to_float (some "7") =
      (pyFloatChars ("7".data.map (fun c => if c = ',' then '.' else c))).getD 0 :=
  to_float_spec.2.2.1 "7" (by decide)

/-- A successfully produced record carries exactly the coerced cell
values. -/
theorem processRow_ok_some (row : Row) (rec : TournamentRecord)
    (h : processRow row = Except.ok (some rec)) :
    rec.buyin_total = to_float (pyGet row.buyIn) ∧
    rec.prize = to_float (pyGet row.result) ∧
    rec.profit = to_float (pyGet row.result) - to_float (pyGet row.buyIn) ∧
    rec.placement = to_int (pyGet row.placement) ∧
    rec.field_size = to_int (pyGet row.fieldSize) := by
  unfold processRow at h
  cases hc : pyGetStrip row.currency "UNKNOWN" with
  | none => rw [hc] at h; simp at h
  | some cur =>
    cases ht : pyGetStrip row.t_type "Unknown" with
    | none => rw [hc, ht] at h; simp at h
    | some ty =>
      rw [hc, ht] at h
      cases hd : parseDateOpt (pyGet row.date) with
      | none => rw [hd] at h; simp at h
      | some dd =>
        rw [hd] at h
        simp only [Except.ok.injEq, Option.some.injEq] at h
        cases h
        exact ⟨rfl, rfl, rfl, rfl, rfl⟩

/-- Every record of `load_summaries` comes from a successfully processed
row. -/
theorem mem_loadRows (rec : TournamentRecord) :
    ∀ rows : List Row, rec ∈ loadRows rows →
      ∃ row, processRow row = Except.ok (some rec) := by
  intro rows
  induction rows with
  | nil => intro h; simp [loadRows] at h
  | cons row rows ih =>
    intro h
    cases hres : processRow row with
    | error e =>
      rw [loadRows, hres] at h
      simp at h
    | ok o =>
      cases o with
      | none =>
        rw [loadRows, hres] at h
        exact ih h
      | some r0 =>
        rw [loadRows, hres] at h
        rcases List.mem_cons.mp h with rfl | h2
        · exact ⟨row, hres⟩
        · exact ih h2

/-- C4: every record the loader produces — from any row of any input
file — satisfies `profit = prize - buyin_total` exactly; profit is
recomputed from the coerced prize and buy-in, never read from input. -/
theorem record_profit_invariant :
    (∀ (row : Row) (rec : TournamentRecord), processRow row = Except.ok (some rec) →
      rec.profit = rec.prize - rec.buyin_total) ∧
    (∀ (files : List (List Row)) (rec : TournamentRecord), rec ∈ load_summaries files →
      rec.profit = rec.prize - rec.buyin_total) := by
  have hrow : ∀ (row : Row) (rec : TournamentRecord), processRow row = Except.ok (some rec) →
      rec.profit = rec.prize - rec.buyin_total := by
    intro row rec h
    obtain ⟨hb, hp, hpr, -, -⟩ := processRow_ok_some row rec h
    rw [hpr, hp, hb]
  refine ⟨hrow, ?_⟩
  intro files rec hmem
  unfold load_summaries at hmem
  rw [List.mem_flatten] at hmem
  obtain ⟨l, hl, hrecl⟩ := hmem
  rw [List.mem_map] at hl
  obtain ⟨rows, -, rfl⟩ := hl
  obtain ⟨row, hrow2⟩ := mem_loadRows rec rows hrecl
  exact hrow row rec hrow2

/-- C4 witness: the invariant at a concrete well-formed row. -/
theorem record_profit_invariant_witness :
    (okRecord (processRow rowW)).isSome = true ∧
    ((okRecord (processRow rowW)).getD recUSD).profit =
      ((okRecord (processRow rowW)).getD recUSD).prize -
        ((okRecord (processRow rowW)).getD recUSD).buyin_total := by
  have hs : (okRecord (processRow rowW)).isSome = true := by decide
  refine ⟨hs, ?_⟩
  cases hh : processRow rowW with
  | error e => rw [hh] at hs; simp [okRecord] at hs
  | ok o =>
    cases o with
    | none => rw [hh] at hs; simp [okRecord] at hs
    | some rec =>
      simpa [okRecord] using record_profit_invariant.1 rowW rec hh

/-- C6 counterexample: a row whose buy-in cell is `"-5"` produces a record
whose stored buy-in total is negative. -/
theorem buyin_total_nonneg_cex :
    ((okRecord (processRow rowNeg)).map (·.buyin_total)) = some (-5) ∧ (-5 : ℚ) < 0 := by
  constructor
  · have hdate : parseDateOpt (pyGet rowNeg.date) = some ⟨2024, 1, 1, 0, 0, 0⟩ := by decide
    have hbuy : to_float (pyGet rowNeg.buyIn) = -5 := by
      show to_float (some "-5") = -5
      have h : pyFloatParse ['-', '5'] = some (true, 5, 0, 0) := by decide
      simp [to_float, pyFloatChars, h, ratOfFloatParts]
    have hcur : pyGetStrip rowNeg.currency "UNKNOWN" = some "USD" := by decide
    have hty : pyGetStrip rowNeg.t_type "Unknown" = some "MTT" := by decide
    simp [processRow, okRecord, hdate, hbuy, hcur, hty]
  · norm_num

/-- C6 (amended): the stored buy-in total is the amount coercion of the
buy-in cell — 0 on missing or unparseable input, and non-negative whenever
the parsed amount is non-negative; the code does not clamp, so a parseable
negative amount is stored as-is. -/
theorem buyin_total_coercion (row : Row) (rec : TournamentRecord)
    (h : processRow row = Except.ok (some rec)) :
    rec.buyin_total = to_float (pyGet row.buyIn) ∧
    (amountParse (pyGet row.buyIn) = none → rec.buyin_total = 0) ∧
    (∀ q, amountParse (pyGet row.buyIn) = some q → 0 ≤ q → 0 ≤ rec.buyin_total) := by
  have hb := (processRow_ok_some row rec h).1
  refine ⟨hb, fun hn => ?_, fun q hq hq0 => ?_⟩
  · rw [hb, to_float_eq_amountParse, hn]; rfl
  · rw [hb, to_float_eq_amountParse, hq]; exact hq0

/-- C6 witness: the amended statement at a concrete row with a parseable
non-negative buy-in. -/
theorem buyin_total_coercion_witness :
    (okRecord (processRow rowW)).isSome = true ∧
    0 ≤ ((okRecord (processRow rowW)).getD recUSD).buyin_total := by
  have hs : (okRecord (processRow rowW)).isSome = true := by decide
  refine ⟨hs, ?_⟩
  cases hh : processRow rowW with
  | error e => rw [hh] at hs; simp [okRecord] at hs
  | ok o =>
    cases o with
    | none => rw [hh] at hs; simp [okRecord] at hs
    | some rec =>
      have hq : amountParse (pyGet rowW.buyIn) = some 10 := by
        show amountParse (some "10") = some 10
        have h10 : pyFloatParse ['1', '0'] = some (false, 10, 0, 0) := by decide
        simp [amountParse, pyFloatChars, h10, ratOfFloatParts]
      simpa [okRecord] using (buyin_total_coercion rowW rec hh).2.2 10 hq (by norm_num)

/-- C8 counterexample: a short line of a file with a `Currency` column —
its cell filled with `None` by the reader — makes per-row processing raise,
although its date parses and its buy-in is a perfectly parseable amount, so
"no exception escapes per-row processing" is false. -/
theorem loader_row_crash_cex :
    isCrash (processRow rowShortCur) = true ∧
    (parseDateOpt (pyGet rowShortCur.date)).isSome = true ∧
    (amountParse (pyGet rowShortCur.buyIn)).isSome = true := by
  exact ⟨by decide, by decide, by decide⟩

/-- C8 (amended): per-row processing raises exactly when the Currency or
Type cell is present but carries no value (`None.strip()`, the
reader's filler for short lines) — even on rows whose date would drop
them, since the source computes these fields before its date check; any
other row is dropped exactly when its date fails to parse, and numeric or
integer parse failures never drop a row — those fields default (0 for
amounts, no value for counts). -/
theorem loader_row_policy (row : Row) :
    (isCrash (processRow row) = true ↔
      (pyGetStrip row.currency "UNKNOWN" = none ∨
        pyGetStrip row.t_type "Unknown" = none)) ∧
    (processRow row = Except.ok none ↔
      (pyGetStrip row.currency "UNKNOWN" ≠ none ∧
        pyGetStrip row.t_type "Unknown" ≠ none ∧
        parseDateOpt (pyGet row.date) = none)) ∧
    (∀ rec, processRow row = Except.ok (some rec) →
      (amountParse (pyGet row.buyIn) = none → rec.buyin_total = 0) ∧
      (amountParse (pyGet row.result) = none → rec.prize = 0) ∧
      (to_int (pyGet row.placement) = none → rec.placement = none) ∧
      (to_int (pyGet row.fieldSize) = none → rec.field_size = none)) := by
  refine ⟨?_, ?_, ?_⟩
  · cases hc : pyGetStrip row.currency "UNKNOWN" with
    | none => simp [processRow, isCrash, hc]
    | some cur =>
      cases ht : pyGetStrip row.t_type "Unknown" with
      | none => simp [processRow, isCrash, hc, ht]
      | some ty =>
        cases hd : parseDateOpt (pyGet row.date) <;>
          simp [processRow, isCrash, hc, ht, hd]
  · cases hc : pyGetStrip row.currency "UNKNOWN" with
    | none => simp [processRow, hc]
    | some cur =>
      cases ht : pyGetStrip row.t_type "Unknown" with
      | none => simp [processRow, hc, ht]
      | some ty =>
        cases hd : parseDateOpt (pyGet row.date) <;>
          simp [processRow, hc, ht, hd]
  · intro rec h
    obtain ⟨hb, hp, -, hpl, hfs⟩ := processRow_ok_some row rec h
    refine ⟨fun hn => ?_, fun hn => ?_, fun hn => ?_, fun hn => ?_⟩
    · rw [hb, to_float_eq_amountParse, hn]; rfl
    · rw [hp, to_float_eq_amountParse, hn]; rfl
    · rw [hpl, hn]
    · rw [hfs, hn]

/-- C8 witness: a concrete crash-free row with a good date and unparseable
numeric and integer cells is kept, with those fields defaulted. -/
theorem loader_row_policy_witness :
    (okRecord (processRow rowBad)).isSome = true ∧
    ((okRecord (processRow rowBad)).map (·.buyin_total)) = some 0 ∧
    ((okRecord (processRow rowBad)).map (·.placement)) = some none := by
  have hs : (okRecord (processRow rowBad)).isSome = true := by decide
  refine ⟨hs, ?_, ?_⟩
  · cases hh : processRow rowBad with
    | error e => rw [hh] at hs; simp [okRecord] at hs
    | ok o =>
      cases o with
      | none => rw [hh] at hs; simp [okRecord] at hs
      | some rec =>
        have hcond : amountParse (pyGet rowBad.buyIn) = none := by decide
        simpa [okRecord] using ((loader_row_policy rowBad).2.2 rec hh).1 hcond
  · cases hh : processRow rowBad with
    | error e => rw [hh] at hs; simp [okRecord] at hs
    | ok o =>
      cases o with
      | none => rw [hh] at hs; simp [okRecord] at hs
      | some rec =>
        have hcond : to_int (pyGet rowBad.placement) = none := by decide
        simpa [okRecord] using ((loader_row_policy rowBad).2.2 rec hh).2.2.1 hcond

/-- The spec-side keep predicate agrees pointwise with the negation of the
loop's three skip conditions. -/
theorem keepSpec_eq (c : Option String) (dmin dmax : Option Date)
    (r : TournamentRecord) :
    keepSpec c dmin dmax r =
      keepB c (dmin.map Date.midnight) (dmax.map Date.midnight) r := by
  cases c <;> cases dmin <;> cases dmax <;>
    simp [keepSpec, keepB, DateTime.leb, bne, Bool.not_and, Bool.not_not]

/-- The filter loop is a stable `List.filter` of its non-skip condition. -/
theorem filterLoop_eq_filter (c : Option String) (dmin dmax : Option DateTime)
    (rs : List TournamentRecord) :
    filterLoop c dmin dmax rs = rs.filter (keepB c dmin dmax) := by
  induction rs with
  | nil => rfl
  | cons r rs ih =>
    cases hc : (match c with | some cc => cc != "" && r.currency != cc | none => false) with
    | true => simp [filterLoop, List.filter_cons, keepB, hc, ih]
    | false =>
      cases h2 : (match dmin with | some d => DateTime.ltb r.date d | none => false) with
      | true => simp [filterLoop, List.filter_cons, keepB, hc, h2, ih]
      | false =>
        cases h3 : (match dmax with | some d => DateTime.ltb d r.date | none => false) with
        | true => simp [filterLoop, List.filter_cons, keepB, hc, h2, h3, ih]
        | false => simp [filterLoop, List.filter_cons, keepB, hc, h2, h3, ih]

/-- C1 counterexample: with the empty string as the currency argument the
filter keeps a record whose currency differs from it, so "when a currency is
given keep only exact matches" fails at `currency = ""`. -/
theorem filter_records_empty_currency_cex :
    filter_records [recUSD] (some "") none none = [recUSD] ∧ recUSD.currency ≠ "" := by
  exact ⟨rfl, by decide⟩

/-- C1 (amended): the filter is the stable subsequence of exactly the
records that match a given non-empty currency, lie at or after midnight of
the min-date, and at or before midnight of the max-date; an empty-string
currency argument is treated as if no currency were given. -/
theorem filter_records_characterization (rs : List TournamentRecord)
    (c : Option String) (dmin dmax : Option Date) :
    filter_records rs c dmin dmax = rs.filter (keepSpec c dmin dmax) ∧
    List.Sublist (filter_records rs c dmin dmax) rs := by
  have h : filter_records rs c dmin dmax = rs.filter (keepSpec c dmin dmax) := by
    unfold filter_records
    rw [filterLoop_eq_filter]
    exact List.filter_congr (fun r _ => (keepSpec_eq c dmin dmax r).symm)
  exact ⟨h, h ▸ List.filter_sublist _⟩

/-- Folding `+` from an arbitrary seed is the seed plus the sum. -/
theorem foldl_add_eq (l : List ℚ) : ∀ a : ℚ, l.foldl (· + ·) a = a + l.sum := by
  induction l with
  | nil => intro a; simp
  | cons x l ih => intro a; simp [List.foldl_cons, ih, List.sum_cons]; ring

/-- Python's `sum` is the list sum. -/
theorem pySum_eq_sum (l : List ℚ) : pySum l = l.sum := by
  unfold pySum; rw [foldl_add_eq]; ring

/-- The conditional-count fold is the length of the filtered list. -/
theorem foldl_count_eq (l : List TournamentRecord) : ∀ n : Nat,
    l.foldl (fun n r => if 0 < r.prize then n + 1 else n) n =
      n + (l.filter (fun r => decide (0 < r.prize))).length := by
  induction l with
  | nil => simp
  | cons r l ih =>
    intro n
    by_cases hp : 0 < r.prize
    · simp [List.filter_cons, hp, ih]
      omega
    · simp [List.filter_cons, hp, ih]

/-- C2 counterexample: on a record list whose summed buy-in is negative the
ROI guard also fires, so "0 returned exactly when Σbuyin is 0" fails — the
code returns 0 although Σbuyin ≠ 0 and the claimed formula value is not 0. -/
theorem aggregate_overall_roi_guard_cex :
    (aggregate_overall [recNegBuyin]).total_buyin ≠ 0 ∧
    (aggregate_overall [recNegBuyin]).roi_percent = 0 ∧
    (aggregate_overall [recNegBuyin]).total_profit /
        (aggregate_overall [recNegBuyin]).total_buyin * 100 ≠ 0 := by
  refine ⟨?_, ?_, ?_⟩
  all_goals simp [aggregate_overall, pySum, recNegBuyin]

/-- C2 (amended): `aggregate_overall` returns the count, summed buy-in,
summed prize, `profit = Σprize − Σbuyin`, `roi = profit/Σbuyin·100` guarded
by `Σbuyin > 0` (0 when `Σbuyin ≤ 0`, in particular when it is 0),
`itm = (#records with prize > 0)/total·100` (0 when total is 0) and
`abi = Σbuyin/total` (0 when total is 0); on the empty list every derived
field is 0 and no division occurs. -/
theorem aggregate_overall_spec (rs : List TournamentRecord) :
    (aggregate_overall rs).total_tournaments = rs.length ∧
    (aggregate_overall rs).total_buyin = (rs.map (·.buyin_total)).sum ∧
    (aggregate_overall rs).total_prize = (rs.map (·.prize)).sum ∧
    (aggregate_overall rs).total_profit =
      (rs.map (·.prize)).sum - (rs.map (·.buyin_total)).sum ∧
    (aggregate_overall rs).roi_percent =
      (if 0 < (rs.map (·.buyin_total)).sum then
        ((rs.map (·.prize)).sum - (rs.map (·.buyin_total)).sum) /
          (rs.map (·.buyin_total)).sum * 100
      else 0) ∧
    (aggregate_overall rs).itm_percent =
      (if 0 < rs.length then
        (((rs.filter (fun r => decide (0 < r.prize))).length : ℚ) / (rs.length : ℚ)) * 100
      else 0) ∧
    (aggregate_overall rs).abi =
      (if 0 < rs.length then (rs.map (·.buyin_total)).sum / (rs.length : ℚ) else 0) ∧
    aggregate_overall [] =
      { total_tournaments := 0, total_buyin := 0, total_prize := 0,
        total_profit := 0, roi_percent := 0, itm_percent := 0, abi := 0 } := by
  refine ⟨rfl, ?_, ?_, ?_, ?_, ?_, ?_, ?_⟩ <;>
    simp [aggregate_overall, pySum_eq_sum, foldl_count_eq]

/-- A format list all of whose attempts fail yields no value. -/
theorem tryFormats_none (v : String) :
    ∀ fs : List Fmt, (∀ f ∈ fs, strptime f (pyStrip v) = none) → tryFormats v fs = none := by
  intro fs
  induction fs with
  | nil => intro _; rfl
  | cons f fs ih =>
    intro h
    simp only [tryFormats]
    rw [h f (by simp)]
    exact ih (fun g hg => h g (by simp [hg]))

/-- C5: `parse_date` tries the six patterns in their fixed order on the
whitespace-trimmed input and returns the first success — an input whose
`i`-th pattern succeeds while all earlier ones fail parses to that result;
it returns no value when the input is empty or every pattern fails. -/
theorem parse_date_first_success :
    (∀ (v : String) (i : Nat) (hi : i < formats.length) (d : DateTime),
        strptime (formats.get ⟨i, hi⟩) (pyStrip v) = some d →
        (∀ j (hj : j < i), strptime (formats.get ⟨j, Nat.lt_trans hj hi⟩) (pyStrip v) = none) →
        v ≠ "" →
        parse_date v = some d) ∧
    (∀ v : String, (∀ f ∈ formats, strptime f (pyStrip v) = none) → parse_date v = none) ∧
    parse_date "" = none := by
  refine ⟨?_, ?_, rfl⟩
  · intro v i hi d hsucc hfail hne
    have h6 : i < 6 := by simpa [formats] using hi
    unfold parse_date
    rw [if_neg hne]
    interval_cases i
    · have hs : strptime .ymd (pyStrip v) = some d := hsucc
      simp only [formats, tryFormats]
      rw [hs]
    · have h0 : strptime .ymd (pyStrip v) = none := hfail 0 (by omega)
      have hs : strptime .ymdHM (pyStrip v) = some d := hsucc
      simp only [formats, tryFormats]
      rw [h0, hs]
    · have h0 : strptime .ymd (pyStrip v) = none := hfail 0 (by omega)
      have h1 : strptime .ymdHM (pyStrip v) = none := hfail 1 (by omega)
      have hs : strptime .ymdHMS (pyStrip v) = some d := hsucc
      simp only [formats, tryFormats]
      rw [h0, h1, hs]
    · have h0 : strptime .ymd (pyStrip v) = none := hfail 0 (by omega)
      have h1 : strptime .ymdHM (pyStrip v) = none := hfail 1 (by omega)
      have h2 : strptime .ymdHMS (pyStrip v) = none := hfail 2 (by omega)
      have hs : strptime .dmy (pyStrip v) = some d := hsucc
      simp only [formats, tryFormats]
      rw [h0, h1, h2, hs]
    · have h0 : strptime .ymd (pyStrip v) = none := hfail 0 (by omega)
      have h1 : strptime .ymdHM (pyStrip v) = none := hfail 1 (by omega)
      have h2 : strptime .ymdHMS (pyStrip v) = none := hfail 2 (by omega)
      have h3 : strptime .dmy (pyStrip v) = none := hfail 3 (by omega)
      have hs : strptime .dmyHM (pyStrip v) = some d := hsucc
      simp only [formats, tryFormats]
      rw [h0, h1, h2, h3, hs]
    · have h0 : strptime .ymd (pyStrip v) = none := hfail 0 (by omega)
      have h1 : strptime .ymdHM (pyStrip v) = none := hfail 1 (by omega)
      have h2 : strptime .ymdHMS (pyStrip v) = none := hfail 2 (by omega)
      have h3 : strptime .dmy (pyStrip v) = none := hfail 3 (by omega)
      have h4 : strptime .dmyHM (pyStrip v) = none := hfail 4 (by omega)
      have hs : strptime .dmyHMS (pyStrip v) = some d := hsucc
      simp only [formats, tryFormats]
      rw [h0, h1, h2, h3, h4, hs]
  · intro v hall
    by_cases hv : v = ""
    · simp [parse_date, hv]
    · unfold parse_date
      rw [if_neg hv]
      exact tryFormats_none v formats hall

/-- C5 witness: an input failing the three ISO patterns and succeeding at
the fourth. -/
theorem parse_date_first_success_witness :
    parse_date "02.01.2024" = some ⟨2024, 1, 2, 0, 0, 0⟩ := by
  refine parse_date_first_success.1 "02.01.2024" 3 (by simp [formats]) _ (by decide) ?_ (by decide)
  intro j hj
  interval_cases j
  · show strptime .ymd (pyStrip "02.01.2024") = none
    decide
  · show strptime .ymdHM (pyStrip "02.01.2024") = none
    decide
  · show strptime .ymdHMS (pyStrip "02.01.2024") = none
    decide

/-- Lookup fails exactly on absent keys. -/
theorem lookupA_eq_none_iff {α : Type} (k : String) (G : List (String × α)) :
    lookupA k G = none ↔ k ∉ G.map Prod.fst := by
  induction G with
  | nil => simp [lookupA]
  | cons p G ih =>
    obtain ⟨k1, v⟩ := p
    by_cases h : k1 = k
    · subst h
      simp only [lookupA, if_pos rfl, List.map_cons]
      exact ⟨fun hh => Option.noConfusion hh,
             fun hh => absurd (List.mem_cons_self _ _) hh⟩
    · simp only [lookupA, if_neg h, List.map_cons]
      rw [ih]
      constructor
      · intro hh hmem
        rcases List.mem_cons.mp hmem with rfl | hm
        · exact h rfl
        · exact hh hm
      · intro hh hm
        exact hh (List.mem_cons_of_mem _ hm)

/-- In-place update preserves the key sequence. -/
theorem updateA_map_fst {α : Type} (k : String) (f : α → α) (G : List (String × α)) :
    (updateA k f G).map Prod.fst = G.map Prod.fst := by
  induction G with
  | nil => rfl
  | cons p G ih =>
    obtain ⟨k1, v⟩ := p
    by_cases h : k1 = k <;> simp [updateA, h, ih]

/-- With unique keys, in-place update is a pointwise map. -/
theorem updateA_eq_map {α : Type} (k : String) (f : α → α) :
    ∀ G : List (String × α), (G.map Prod.fst).Nodup →
      updateA k f G = G.map (fun p => if p.1 = k then (p.1, f p.2) else p) := by
  intro G
  induction G with
  | nil => intro _; rfl
  | cons p G ih =>
    intro hnd
    obtain ⟨k1, v⟩ := p
    rw [List.map_cons, List.nodup_cons] at hnd
    by_cases h : k1 = k
    · subst h
      have hG : G.map (fun p => if p.1 = k1 then (p.1, f p.2) else p) = G := by
        have hcg := List.map_congr_left (l := G)
          (f := fun p : String × α => if p.1 = k1 then (p.1, f p.2) else p) (g := fun p => p)
          (fun p hp => by
            have hne : p.1 ≠ k1 := by
              intro e
              apply hnd.1
              have hmm := List.mem_map_of_mem Prod.fst hp
              rw [← e]
              exact hmm
            simp [hne])
        simpa using hcg
      simp [updateA, hG]
    · simp [updateA, h, ih hnd.2]

/-- Updating the key just appended at the end. -/
theorem updateA_append_last {α : Type} (k : String) (f : α → α) (v : α) :
    ∀ G : List (String × α), k ∉ G.map Prod.fst →
      updateA k f (G ++ [(k, v)]) = G ++ [(k, f v)] := by
  intro G
  induction G with
  | nil => intro _; simp [updateA]
  | cons p G ih =>
    intro h
    obtain ⟨k1, w⟩ := p
    rw [List.map_cons] at h
    have hk1 : k1 ≠ k := fun e => h (by simp [e])
    have hG : k ∉ G.map Prod.fst := fun e => h (by simp [e])
    simp [updateA, hk1, ih hG]

/-- Keys emitted by the first-seen pass were not already seen. -/
theorem firstSeenAux_not_mem_seen :
    ∀ (l seen : List String) (k : String), k ∈ firstSeenAux seen l → k ∉ seen := by
  intro l
  induction l with
  | nil => intro seen k h; simp [firstSeenAux] at h
  | cons k0 ks ih =>
    intro seen k h
    by_cases h0 : k0 ∈ seen
    · rw [firstSeenAux, if_pos h0] at h
      exact ih seen k h
    · rw [firstSeenAux, if_neg h0] at h
      rcases List.mem_cons.mp h with rfl | h2
      · exact h0
      · intro hs
        exact ih (seen ++ [k0]) k h2 (by simp [hs])

/-- The first-seen key list has no duplicates. -/
theorem firstSeenAux_nodup : ∀ (l seen : List String), (firstSeenAux seen l).Nodup := by
  intro l
  induction l with
  | nil => intro seen; simp [firstSeenAux]
  | cons k0 ks ih =>
    intro seen
    by_cases h0 : k0 ∈ seen
    · rw [firstSeenAux, if_pos h0]
      exact ih seen
    · rw [firstSeenAux, if_neg h0]
      exact List.nodup_cons.mpr
        ⟨fun hmem => (firstSeenAux_not_mem_seen ks (seen ++ [k0]) k0 hmem) (by simp),
         ih (seen ++ [k0])⟩

/-- Every unseen key of the list appears in the first-seen pass. -/
theorem mem_firstSeenAux :
    ∀ (l seen : List String) (k : String), k ∈ l → k ∉ seen → k ∈ firstSeenAux seen l := by
  intro l
  induction l with
  | nil => intro seen k h; simp at h
  | cons k0 ks ih =>
    intro seen k hk hns
    by_cases h0 : k0 ∈ seen
    · rw [firstSeenAux, if_pos h0]
      rcases List.mem_cons.mp hk with rfl | h2
      · exact absurd h0 hns
      · exact ih seen k h2 hns
    · rw [firstSeenAux, if_neg h0]
      rcases List.mem_cons.mp hk with rfl | h2
      · exact List.mem_cons_self _ _
      · by_cases hkk : k = k0
        · subst hkk; exact List.mem_cons_self _ _
        · exact List.mem_cons_of_mem _ (ih (seen ++ [k0]) k h2 (by simp [hns, hkk]))

/-- Closed form of the grouping fold: starting from a state with unique
keys, the result updates every existing group with the sums over its
records and appends the new keys in first-seen order, each with the sums
over its records. -/
theorem foldl_accStep_closed (key : TournamentRecord → String) :
    ∀ (rs : List TournamentRecord) (G : List (String × GroupAcc)),
      (G.map Prod.fst).Nodup →
      rs.foldl (accStep key) G =
        G.map (fun p => (p.1, addAll p.2 (rs.filter (fun r => key r == p.1)))) ++
        (firstSeenAux (G.map Prod.fst) (rs.map key)).map
          (fun k => (k, addAll ⟨0, 0, 0, 0⟩ (rs.filter (fun r => key r == k)))) := by
  intro rs
  induction rs with
  | nil =>
    intro G hG
    simp [firstSeenAux, addAll]
  | cons r rs ih =>
    intro G hG
    rw [List.foldl_cons]
    cases hl : lookupA (key r) G with
    | some v0 =>
      have hmem : key r ∈ G.map Prod.fst := by
        by_contra hmm
        rw [(lookupA_eq_none_iff _ _).mpr hmm] at hl
        exact Option.noConfusion hl
      have hstep : accStep key G r = updateA (key r) (fun v => addRec v r) G := by
        simp [accStep, hl]
      rw [hstep, ih _ (by rw [updateA_map_fst]; exact hG), updateA_map_fst]
      congr 1
      · rw [updateA_eq_map _ _ G hG, List.map_map]
        apply List.map_congr_left
        intro p hp
        by_cases hpk : p.1 = key r
        · simp only [Function.comp, if_pos hpk]
          rw [List.filter_cons, if_pos (by simp [hpk])]
          rfl
        · simp only [Function.comp, if_neg hpk]
          rw [List.filter_cons, if_neg (by simp [Ne.symm hpk])]
      · rw [List.map_cons, firstSeenAux, if_pos hmem]
        apply List.map_congr_left
        intro k hk
        have hkne : key r ≠ k := fun e => (firstSeenAux_not_mem_seen _ _ _ hk) (e ▸ hmem)
        rw [List.filter_cons, if_neg (by simp [hkne])]
    | none =>
      have hmem : key r ∉ G.map Prod.fst := (lookupA_eq_none_iff _ _).mp hl
      have hstep : accStep key G r = G ++ [(key r, addRec ⟨0, 0, 0, 0⟩ r)] := by
        simp only [accStep, hl]
        exact updateA_append_last _ _ _ G hmem
      have hnd2 : ((G ++ [(key r, addRec ⟨0, 0, 0, 0⟩ r)]).map Prod.fst).Nodup := by
        simp only [List.map_append, List.map_cons, List.map_nil, List.nodup_append]
        refine ⟨hG, by simp, ?_⟩
        intro a ha hb
        rw [List.mem_singleton] at hb
        subst hb
        exact hmem ha
      have hfs : firstSeenAux (G.map Prod.fst) ((r :: rs).map key) =
          key r :: firstSeenAux (G.map Prod.fst ++ [key r]) (rs.map key) := by
        rw [List.map_cons, firstSeenAux, if_neg hmem]
      have hkeys : (G ++ [(key r, addRec ⟨0, 0, 0, 0⟩ r)]).map Prod.fst =
          G.map Prod.fst ++ [key r] := by
        simp
      rw [hstep, ih _ hnd2, hfs, hkeys, List.map_append, List.map_cons, List.append_assoc]
      congr 1
      · apply List.map_congr_left
        intro p hp
        have hpk : key r ≠ p.1 := by
          intro e
          apply hmem
          have hmm := List.mem_map_of_mem Prod.fst hp
          rw [e]
          exact hmm
        rw [List.filter_cons, if_neg (by simp [hpk])]
      · simp only [List.map_cons, List.map_nil, List.singleton_append]
        congr 1
        · rw [List.filter_cons, if_pos (by simp)]
          rfl
        · apply List.map_congr_left
          intro k hk
          have hkne : key r ≠ k := by
            intro e
            have hni := firstSeenAux_not_mem_seen _ _ _ hk
            exact hni (by simp [e])
          rw [List.filter_cons, if_neg (by simp [hkne])]

/-- The grouping fold over a selection computes its count and sums. -/
theorem addAll_eq (sel : List TournamentRecord) : ∀ v : GroupAcc,
    addAll v sel =
      ⟨v.count + sel.length, v.buyin + (sel.map (·.buyin_total)).sum,
       v.prize + (sel.map (·.prize)).sum, v.profit + (sel.map (·.profit)).sum⟩ := by
  induction sel with
  | nil =>
    intro v
    cases v
    simp [addAll]
  | cons r sel ih =>
    intro v
    have h1 : addAll v (r :: sel) = addAll (addRec v r) sel := rfl
    rw [h1, ih]
    simp only [addRec, List.map_cons, List.sum_cons, List.length_cons, GroupAcc.mk.injEq]
    refine ⟨by omega, by ring, by ring, by ring⟩

/-- The spec-side group sums are the grouping fold from zero. -/
theorem groupSpecAcc_eq (key : TournamentRecord → String) (k : String)
    (rs : List TournamentRecord) :
    groupSpecAcc key k rs = addAll ⟨0, 0, 0, 0⟩ (rs.filter (fun r => key r == k)) := by
  rw [addAll_eq]
  simp [groupSpecAcc]

/-- Both group-by aggregations refine the spec-side group-by. -/
theorem aggregateByKey_eq_groupSpec (key : TournamentRecord → String)
    (rs : List TournamentRecord) : aggregateByKey key rs = groupSpec key rs := by
  unfold aggregateByKey groupSpec
  rw [foldl_accStep_closed key rs [] (by simp)]
  simp only [List.map_nil, List.nil_append, firstSeen]
  rw [List.map_map]
  apply List.map_congr_left
  intro k _
  simp only [Function.comp]
  rw [groupSpecAcc_eq]

/-- C7: the group-by aggregations (by stake tier and by tournament type)
list their keys in first-seen order, each group accumulating count, Σbuyin,
Σprize and Σprofit over the records with that key, with roi% and abi derived
after accumulation under the division guards. -/
theorem aggregate_by_key_spec (rs : List TournamentRecord) :
    aggregate_by_limits rs = groupSpec (fun r => get_limit_group r.buyin_total) rs ∧
    aggregate_by_type rs = groupSpec (fun r => r.t_type) rs :=
  ⟨aggregateByKey_eq_groupSpec _ rs, aggregateByKey_eq_groupSpec _ rs⟩

/-- Summing a function over a nodup key list where exactly one key carries
an extra addend. -/
theorem sum_map_ite_add {M : Type} [AddCommMonoid M] (a : String) (x : M) (t : String → M) :
    ∀ ks : List String, ks.Nodup → a ∈ ks →
      (ks.map (fun k => if k = a then x + t k else t k)).sum = x + (ks.map t).sum := by
  intro ks
  induction ks with
  | nil => intro _ h; simp at h
  | cons k0 ks ih =>
    intro hnd hmem
    rw [List.nodup_cons] at hnd
    rcases List.mem_cons.mp hmem with rfl | hm
    · rw [List.map_cons, List.sum_cons, if_pos rfl]
      have htail : ks.map (fun k => if k = a then x + t k else t k) = ks.map t := by
        apply List.map_congr_left
        intro k hk
        have hne : k ≠ a := fun e => hnd.1 (e ▸ hk)
        rw [if_neg hne]
      rw [htail, List.map_cons, List.sum_cons, add_assoc]
    · rw [List.map_cons, List.sum_cons, List.map_cons, List.sum_cons]
      by_cases hk0 : k0 = a
      · subst hk0
        exact absurd hm hnd.1
      · rw [if_neg hk0, ih hnd.2 hm, add_left_comm]

/-- Partition property of a group-by with a nodup covering key list: the
per-key sums of `f` over the fibers add up to the sum of `f` over the whole
list. -/
theorem partition_map_sum {M : Type} [AddCommMonoid M] (key : TournamentRecord → String)
    (f : TournamentRecord → M) :
    ∀ (rs : List TournamentRecord) (ks : List String), ks.Nodup →
      (∀ r ∈ rs, key r ∈ ks) →
      (ks.map (fun k => ((rs.filter (fun r => key r == k)).map f).sum)).sum
        = (rs.map f).sum := by
  intro rs
  induction rs with
  | nil => intro ks _ _; simp
  | cons r rs ih =>
    intro ks hnd hcov
    have hr : key r ∈ ks := hcov r (List.mem_cons_self _ _)
    have hstep : ∀ k ∈ ks,
        (((r :: rs).filter (fun r2 => key r2 == k)).map f).sum =
          (if k = key r then f r + ((rs.filter (fun r2 => key r2 == k)).map f).sum
           else ((rs.filter (fun r2 => key r2 == k)).map f).sum) := by
      intro k _
      by_cases hk : k = key r
      · rw [List.filter_cons, if_pos (by simp [hk]), List.map_cons, List.sum_cons, if_pos hk]
      · rw [List.filter_cons,
          if_neg (by simp only [beq_iff_eq]; exact fun e => hk e.symm), if_neg hk]
    rw [List.map_congr_left hstep,
      sum_map_ite_add (key r) (f r) _ ks hnd hr,
      List.map_cons, List.sum_cons,
      ih ks hnd (fun r2 h2 => hcov r2 (List.mem_cons_of_mem _ h2))]

/-- List length as a sum of ones. -/
theorem length_eq_sum_ones (l : List TournamentRecord) :
    l.length = (l.map (fun _ => (1 : ℕ))).sum := by
  induction l with
  | nil => rfl
  | cons r l ih =>
    rw [List.length_cons, List.map_cons, List.sum_cons, ih]
    omega

/-- Pointwise profit invariance lifts to sums. -/
theorem sum_profit_eq (l : List TournamentRecord)
    (h : ∀ r ∈ l, r.profit = r.prize - r.buyin_total) :
    (l.map (·.profit)).sum = (l.map (·.prize)).sum - (l.map (·.buyin_total)).sum := by
  induction l with
  | nil => simp
  | cons r l ih =>
    simp only [List.map_cons, List.sum_cons]
    rw [h r (List.mem_cons_self _ _), ih (fun r2 h2 => h r2 (List.mem_cons_of_mem _ h2))]
    ring

/-- The spec-side group-by is a partition: per-group counts and sums add up
to the whole list's, and every record's key has a group. -/
theorem groupSpec_sums (key : TournamentRecord → String) (rs : List TournamentRecord) :
    ((groupSpec key rs).map (fun p => p.2.count)).sum = rs.length ∧
    ((groupSpec key rs).map (fun p => p.2.buyin)).sum = (rs.map (·.buyin_total)).sum ∧
    ((groupSpec key rs).map (fun p => p.2.prize)).sum = (rs.map (·.prize)).sum ∧
    ((groupSpec key rs).map (fun p => p.2.profit)).sum = (rs.map (·.profit)).sum ∧
    (∀ r ∈ rs, key r ∈ (groupSpec key rs).map Prod.fst) := by
  have hnd : (firstSeen (rs.map key)).Nodup := firstSeenAux_nodup _ _
  have hcov : ∀ r ∈ rs, key r ∈ firstSeen (rs.map key) := fun r hr =>
    mem_firstSeenAux _ _ _ (List.mem_map_of_mem key hr) (by simp)
  have hkeys : (groupSpec key rs).map Prod.fst = firstSeen (rs.map key) := by
    rw [groupSpec, List.map_map]
    exact List.map_id _
  refine ⟨?_, ?_, ?_, ?_, ?_⟩
  · have h1 : (groupSpec key rs).map (fun p => p.2.count) =
        (firstSeen (rs.map key)).map
          (fun k => ((rs.filter (fun r => key r == k)).map (fun _ => (1 : ℕ))).sum) := by
      simp only [groupSpec, List.map_map]
      apply List.map_congr_left
      intro k _
      simp only [Function.comp, deriveStats, groupSpecAcc]
      exact length_eq_sum_ones _
    rw [h1, partition_map_sum key (fun _ => (1 : ℕ)) rs _ hnd hcov, ← length_eq_sum_ones]
  · have h1 : (groupSpec key rs).map (fun p => p.2.buyin) =
        (firstSeen (rs.map key)).map
          (fun k => ((rs.filter (fun r => key r == k)).map (·.buyin_total)).sum) := by
      simp only [groupSpec, List.map_map]
      rfl
    rw [h1, partition_map_sum key (·.buyin_total) rs _ hnd hcov]
  · have h1 : (groupSpec key rs).map (fun p => p.2.prize) =
        (firstSeen (rs.map key)).map
          (fun k => ((rs.filter (fun r => key r == k)).map (·.prize)).sum) := by
      simp only [groupSpec, List.map_map]
      rfl
    rw [h1, partition_map_sum key (·.prize) rs _ hnd hcov]
  · have h1 : (groupSpec key rs).map (fun p => p.2.profit) =
        (firstSeen (rs.map key)).map
          (fun k => ((rs.filter (fun r => key r == k)).map (·.profit)).sum) := by
      simp only [groupSpec, List.map_map]
      rfl
    rw [h1, partition_map_sum key (·.profit) rs _ hnd hcov]
  · rw [hkeys]
    exact hcov

/-- C10: the stake-tier group-by partitions the input — every record lands
in exactly the group named by its buy-in's tier, so group counts sum to the
overall count, group buy-ins to the overall buy-in, likewise prizes, and
group profits to the input's summed profit, which equals the overall profit
whenever every record satisfies `profit = prize − buyin`. -/
theorem stake_tier_partition (rs : List TournamentRecord) :
    ((aggregate_by_limits rs).map (fun p => p.2.count)).sum =
      (aggregate_overall rs).total_tournaments ∧
    ((aggregate_by_limits rs).map (fun p => p.2.buyin)).sum =
      (aggregate_overall rs).total_buyin ∧
    ((aggregate_by_limits rs).map (fun p => p.2.prize)).sum =
      (aggregate_overall rs).total_prize ∧
    ((aggregate_by_limits rs).map (fun p => p.2.profit)).sum = (rs.map (·.profit)).sum ∧
    (∀ r ∈ rs, get_limit_group r.buyin_total ∈ (aggregate_by_limits rs).map Prod.fst) ∧
    ((∀ r ∈ rs, r.profit = r.prize - r.buyin_total) →
      ((aggregate_by_limits rs).map (fun p => p.2.profit)).sum =
        (aggregate_overall rs).total_profit) := by
  have hagg : aggregate_by_limits rs = groupSpec (fun r => get_limit_group r.buyin_total) rs :=
    aggregateByKey_eq_groupSpec _ rs
  have hsums := groupSpec_sums (fun r => get_limit_group r.buyin_total) rs
  have hbuyin : (aggregate_overall rs).total_buyin = (rs.map (·.buyin_total)).sum := by
    simp [aggregate_overall, pySum_eq_sum]
  have hprize : (aggregate_overall rs).total_prize = (rs.map (·.prize)).sum := by
    simp [aggregate_overall, pySum_eq_sum]
  refine ⟨?_, ?_, ?_, ?_, ?_, ?_⟩
  · rw [hagg, hsums.1]
    rfl
  · rw [hagg, hsums.2.1, hbuyin]
  · rw [hagg, hsums.2.2.1, hprize]
  · rw [hagg, hsums.2.2.2.1]
  · rw [hagg]
    exact hsums.2.2.2.2
  · intro hinv
    have hprofit : (aggregate_overall rs).total_profit =
        (rs.map (·.prize)).sum - (rs.map (·.buyin_total)).sum := by
      simp [aggregate_overall, pySum_eq_sum]
    rw [hagg, hsums.2.2.2.1, sum_profit_eq rs hinv, hprofit]

/-- C10 witness: the profit-link conjunct discharged on a concrete pair of
records satisfying the loader invariant. -/
theorem stake_tier_partition_witness :
    ((aggregate_by_limits [recUSD, recLow]).map (fun p => p.2.profit)).sum =
      (aggregate_overall [recUSD, recLow]).total_profit := by
  apply (stake_tier_partition [recUSD, recLow]).2.2.2.2.2
  intro r hr
  rcases List.mem_cons.mp hr with rfl | hr2
  · norm_num [recUSD]
  rcases List.mem_cons.mp hr2 with rfl | hr3
  · norm_num [recLow]
  · simp at hr3

end Pokercraft
